import Mathlib

/-!
Verification of the weekly nurse-scheduling model builder
(`or_tools_scheduler.py`, function `solve_schedule_ortools`).

The Python function turns tabular inputs (nurses, rooms, demand,
preferences, locks) into a CP-SAT model.  We embed its pure content:

* the entity lookups that the function builds from the data-frame rows
  (Python dict comprehensions, so a later row with the same key silently
  overwrites an earlier one);
* the sparse decision-variable key space `x` (a boolean variable exists
  only for a feasible nurse/room pair, replicated over selected shifts
  and days);
* the constraint families the function emits, phrased as a predicate
  `SolutionValid` on valuations of the decision and slack variables: a
  solution accepted by the backend solver is exactly a valuation that
  satisfies every emitted constraint and every declared variable bound;
* the fallible steps, modelled with `Except`: numeric-field conversion,
  the lock check, and the output loop itself — whose unguarded
  `solver.Value(x[key])` read raises when the solver response holds no
  solution and any decision variable exists.

Machine integers of the source are modelled as `Int` (Python ints are
unbounded).  A pandas `NaN` in a numeric cell is modelled as `none`;
`int(...)` applied to it raises, which the embedding returns as
`SchedulerError.valueError` carrying CPython's fixed message.
-/

namespace NurseSched

/-- A nurse row, after the entity normalizer has expanded the
semicolon-joined qualification string into a set (modelled as a list,
used only through membership).  `none` in a numeric field models a
missing value (pandas `NaN`); `none` in `certification` models `NaN`,
which the source maps to the empty string. -/
structure NurseRow where
  nurse_id : String
  qualifications : List String
  certification : Option String
  max_shifts_per_day : Option Int
  max_shifts_per_week : Option Int
deriving DecidableEq

/-- A room row; `required_qualifications` is the parsed requirement set,
`tags` is the room category column (`none` models `NaN`, mapped to the
empty string by the source). -/
structure RoomRow where
  room_id : String
  room_name : String
  required_qualifications : List String
  tags : Option String
deriving DecidableEq

/-- A demand row: `required_nurses` is the demanded head count for
(day, room, shift); `none` models a missing numeric value. -/
structure DemandRow where
  day : String
  room_id : String
  shift : String
  required_nurses : Option Int
deriving DecidableEq

/-- A preference row for (nurse, day, shift). -/
structure PrefRow where
  nurse_id : String
  day : String
  shift : String
  preference : Option Int
deriving DecidableEq

/-- A lock row pinning (day, shift, room, nurse); `locked` is the 0/1
flag column. -/
structure LockRow where
  day : String
  shift : String
  room_id : String
  nurse_id : String
  locked : Option Int
deriving DecidableEq

/-- The five input tables of `solve_schedule_ortools`. -/
structure Inputs where
  nurses : List NurseRow
  rooms : List RoomRow
  demand : List DemandRow
  prefs : List PrefRow
  locks : List LockRow
deriving DecidableEq

/-- The configuration arguments of `solve_schedule_ortools` that shape
the constraint system (weights and the time limit only shape the
objective and the search, not the feasible set, and are not needed by
the claims below). -/
structure Config where
  days : List String
  shifts : List String
  allow_overstaff : Bool
  target_shifts_per_nurse_week : Option Int
  enforce_rest_night_to_day : Bool
  charge_rooms_tags : List String
  require_cnor_in_or : Bool
deriving DecidableEq

/-- `nurses_df["nurse_id"].astype(str).tolist()` — the nurse-id column,
in row order, duplicates kept. -/
def nurse_ids (inp : Inputs) : List String :=
  inp.nurses.map fun r => r.nurse_id

/-- `rooms_df["room_id"].astype(str).tolist()`. -/
def room_ids (inp : Inputs) : List String :=
  inp.rooms.map fun r => r.room_id

/-- `qual_by_nurse[n]`: the dict comprehension keyed by nurse id keeps
the LAST row with a given id, hence the lookup through the reversed row
list.  An id that resolves to no row yields the empty set (the source
would raise a `KeyError`, but every caller passes an id drawn from the
nurse table, so the default is never observable). -/
def qual_by_nurse (inp : Inputs) (n : String) : List String :=
  ((inp.nurses.reverse.find? fun r => r.nurse_id == n).map fun r => r.qualifications).getD []

/-- `req_by_room[rid]`, last row with the given room id winning. -/
def req_by_room (inp : Inputs) (rid : String) : List String :=
  ((inp.rooms.reverse.find? fun r => r.room_id == rid).map fun r => r.required_qualifications).getD []

/-- `cert_by_nurse[n]`: certification string, `NaN` mapped to `""`,
last row with the id winning. -/
def cert_by_nurse (inp : Inputs) (n : String) : String :=
  ((inp.nurses.reverse.find? fun r => r.nurse_id == n).map fun r => r.certification.getD "").getD ""

/-- `tag_by_room.get(rid, "")`: the tags column, `NaN` mapped to `""`,
last row winning, default `""`. -/
def tag_by_room (inp : Inputs) (rid : String) : String :=
  ((inp.rooms.reverse.find? fun r => r.room_id == rid).map fun r => r.tags.getD "").getD ""

/-- `max_per_day[n]` after the `int(...)` conversion; the `getD 0`
defaults are unobservable once `normalizeNumeric` has succeeded and the
id resolves, matching the source. -/
def max_per_day (inp : Inputs) (n : String) : Int :=
  (((inp.nurses.reverse.find? fun r => r.nurse_id == n).map fun r =>
    r.max_shifts_per_day.getD 0).getD 0)

/-- `max_per_week[n]`, analogous to `max_per_day`. -/
def max_per_week (inp : Inputs) (n : String) : Int :=
  (((inp.nurses.reverse.find? fun r => r.nurse_id == n).map fun r =>
    r.max_shifts_per_week.getD 0).getD 0)

/-- The demand dict: rows inserted in order (last row with a key wins),
then `setdefault 0` for every in-horizon (day, room, shift).  Queried
only at in-horizon keys, so the lookup is: value of the last matching
demand row, else 0. -/
def demand_lookup (rows : List DemandRow) (d rid sh : String) : Int :=
  match rows.reverse.find? fun q => q.day == d && q.room_id == rid && q.shift == sh with
  | some q => q.required_nurses.getD 0
  | none => 0

/-- `demand[(d, rid, sh)]` for the given inputs. -/
def demandVal (inp : Inputs) (d rid sh : String) : Int :=
  demand_lookup inp.demand d rid sh

/-- `pref_lookup`: dict keyed by (nurse, day, shift), last row wins;
`none` when the key is absent from the table (the objective later reads
it with `.get(key, 0)`). -/
def pref_map (rows : List PrefRow) (n d sh : String) : Option Int :=
  (rows.reverse.find? fun q => q.nurse_id == n && q.day == d && q.shift == sh).map
    fun q => q.preference.getD 0

/-- The key of the locks dict: (day, shift, room, nurse). -/
structure LKey where
  d : String
  s : String
  r : String
  n : String
deriving DecidableEq

/-- Python dict insertion: overwrite in place when the key is present,
else append; preserves first-insertion order of keys. -/
def dictInsert (m : List (LKey × Int)) (k : LKey) (v : Int) : List (LKey × Int) :=
  if m.any fun p => p.1 == k then
    m.map fun p => if p.1 == k then (k, v) else p
  else
    m ++ [(k, v)]

/-- `locks_lookup`: the locks dict, built row by row with
`int(r.get("locked", 0))`. -/
def locks_dict (rows : List LockRow) : List (LKey × Int) :=
  rows.foldl (fun m q => dictInsert m ⟨q.day, q.shift, q.room_id, q.nurse_id⟩ (q.locked.getD 0)) []

/-- Lookup in the association list representing a Python dict. -/
def assoc_find (m : List (LKey × Int)) (k : LKey) : Option Int :=
  (m.find? fun p => p.1 == k).map fun p => p.2

/-- `feasible(n, rid) = req_by_room[rid].issubset(qual_by_nurse[n])`. -/
def feasible (inp : Inputs) (n rid : String) : Prop :=
  ∀ q ∈ req_by_room inp rid, q ∈ qual_by_nurse inp n

instance instDecFeasible (inp : Inputs) (n rid : String) : Decidable (feasible inp n rid) := by
  unfold feasible; infer_instance

/-- The key of a boolean decision variable `x[n, rid, sh, d]`. -/
structure VKey where
  n : String
  r : String
  s : String
  d : String
deriving DecidableEq

/-- The sequence of keys for which `model.NewBoolVar` is called, in loop
order: nurses, then rooms filtered by feasibility, then shifts, then
days.  The Python dict `x` has exactly these keys (deduplicated, which
matters only if an id column has duplicates). -/
def xKeys (inp : Inputs) (cfg : Config) : List VKey :=
  (nurse_ids inp).flatMap fun n =>
    ((room_ids inp).filter fun rid => decide (feasible inp n rid)).flatMap fun rid =>
      cfg.shifts.flatMap fun sh =>
        cfg.days.map fun d => ⟨n, rid, sh, d⟩

/-- Key membership in the variable dict `x`. -/
def hasVar (inp : Inputs) (cfg : Config) (k : VKey) : Prop :=
  k ∈ xKeys inp cfg

instance instDecHasVar (inp : Inputs) (cfg : Config) (k : VKey) : Decidable (hasVar inp cfg k) := by
  unfold hasVar; infer_instance

/-- The distinct keys of the dict `x`; sums over the dict iterate each
key once. -/
def xKeysD (inp : Inputs) (cfg : Config) : List VKey :=
  (xKeys inp cfg).dedup

theorem mem_xKeysD (inp : Inputs) (cfg : Config) (k : VKey) :
    k ∈ xKeysD inp cfg ↔ k ∈ xKeys inp cfg := by
  simp [xKeysD, List.mem_dedup]

theorem mem_xKeys (inp : Inputs) (cfg : Config) (k : VKey) :
    k ∈ xKeys inp cfg ↔
      k.n ∈ nurse_ids inp ∧ k.r ∈ room_ids inp ∧ k.s ∈ cfg.shifts ∧ k.d ∈ cfg.days ∧
        feasible inp k.n k.r := by
  obtain ⟨n, r, s, d⟩ := k
  simp only [xKeys, List.mem_flatMap, List.mem_filter, List.mem_map]
  constructor
  · rintro ⟨n1, hn1, r1, ⟨hr1, hf1⟩, s1, hs1, d1, hd1, hk⟩
    cases hk
    exact ⟨hn1, hr1, hs1, hd1, of_decide_eq_true hf1⟩
  · rintro ⟨hn, hr, hs, hd, hf⟩
    exact ⟨n, hn, r, ⟨hr, decide_eq_true hf⟩, s, hs, d, hd, rfl⟩

/-- The value of a boolean variable as the integer the linear
constraints see. -/
def bint (b : Bool) : Int :=
  if b then 1 else 0

/-- Sum of the values of the variables whose keys are listed. -/
def sumX (ks : List VKey) (xval : VKey → Bool) : Int :=
  (ks.map fun k => bint (xval k)).sum

theorem bint_nonneg (b : Bool) : 0 ≤ bint b := by
  cases b <;> simp [bint]

theorem bint_le_one (b : Bool) : bint b ≤ 1 := by
  cases b <;> simp [bint]

theorem sumX_nonneg (ks : List VKey) (xval : VKey → Bool) : 0 ≤ sumX ks xval := by
  induction ks with
  | nil => simp [sumX]
  | cons a l ih =>
    have := bint_nonneg (xval a)
    simp only [sumX, List.map_cons, List.sum_cons] at ih ⊢
    omega

theorem sumX_eq_filter_length (ks : List VKey) (xval : VKey → Bool) :
    sumX ks xval = ((ks.filter fun k => xval k).length : Int) := by
  induction ks with
  | nil => simp [sumX]
  | cons a l ih =>
    by_cases h : xval a = true
    · simp [sumX, List.filter_cons, h, bint] at ih ⊢
      omega
    · simp only [Bool.not_eq_true] at h
      simp [sumX, List.filter_cons, h, bint] at ih ⊢
      omega

theorem single_le_sumX (ks : List VKey) (xval : VKey → Bool) (k : VKey)
    (hk : k ∈ ks) (hx : xval k = true) : 1 ≤ sumX ks xval := by
  have h1 : bint (xval k) ∈ ks.map fun j => bint (xval j) := List.mem_map_of_mem _ hk
  have h2 : ∀ v ∈ ks.map fun j => bint (xval j), (0 : Int) ≤ v := by
    intro v hv
    obtain ⟨j, _, rfl⟩ := List.mem_map.mp hv
    exact bint_nonneg _
  have := List.single_le_sum h2 _ h1
  simpa [sumX, bint, hx] using this

/-- `Σ_n |{r ∈ R : p n r}| = Σ_r |{n ∈ N : p n r}|`, counting with
row multiplicity on both sides. -/
theorem sum_filter_swap (N R : List String) (p : String → String → Bool) :
    (N.map fun n => ((R.filter fun r => p n r).length : Nat)).sum =
      (R.map fun r => ((N.filter fun n => p n r).length : Nat)).sum := by
  induction N with
  | nil =>
    simp
  | cons a l ih =>
    have hsplit : ∀ rs : List String,
        (rs.map fun r => ((a :: l).filter fun n => p n r).length).sum =
          (rs.filter fun r => p a r).length +
            (rs.map fun r => (l.filter fun n => p n r).length).sum := by
      intro rs
      induction rs with
      | nil => simp
      | cons b m ihm =>
        rw [List.map_cons, List.sum_cons, ihm, List.map_cons, List.sum_cons]
        by_cases hb : p a b = true
        · simp only [List.filter_cons, hb, if_true, List.length_cons]
          omega
        · simp only [Bool.not_eq_true] at hb
          simp only [List.filter_cons, hb, Bool.false_eq_true, if_false]
          omega
    simp only [List.map_cons, List.sum_cons, ih, hsplit R]

theorem xKeys_length (inp : Inputs) (cfg : Config) :
    (xKeys inp cfg).length =
      cfg.days.length * cfg.shifts.length *
        ((room_ids inp).map fun rid =>
          ((nurse_ids inp).filter fun n => decide (feasible inp n rid)).length).sum := by
  have hinner : ∀ n rid : String,
      ((cfg.shifts.flatMap fun sh => cfg.days.map fun d => (⟨n, rid, sh, d⟩ : VKey)).length) =
        cfg.shifts.length * cfg.days.length := by
    intro n rid
    rw [List.length_flatMap]
    have : (cfg.shifts.map fun sh => (cfg.days.map fun d => (⟨n, rid, sh, d⟩ : VKey)).length) =
        cfg.shifts.map fun _ => cfg.days.length := by
      simp
    simp only [Function.comp_def, List.length_map, this]
    induction cfg.shifts with
    | nil => simp
    | cons a l ih => simp [ih]; ring
  have hmid : ∀ n : String,
      (((room_ids inp).filter fun rid => decide (feasible inp n rid)).flatMap fun rid =>
          cfg.shifts.flatMap fun sh => cfg.days.map fun d => (⟨n, rid, sh, d⟩ : VKey)).length =
        ((room_ids inp).filter fun rid => decide (feasible inp n rid)).length *
          (cfg.shifts.length * cfg.days.length) := by
    intro n
    rw [List.length_flatMap]
    generalize ((room_ids inp).filter fun rid => decide (feasible inp n rid)) = rs
    induction rs with
    | nil => simp
    | cons a l ih =>
      simp only [Function.comp_def, List.map_cons, List.sum_cons] at ih ⊢
      rw [hinner n a, ih, List.length_cons]
      ring
  rw [xKeys, List.length_flatMap]
  have hmap : ((nurse_ids inp).map
      (List.length ∘ fun n =>
        ((room_ids inp).filter fun rid => decide (feasible inp n rid)).flatMap fun rid =>
          cfg.shifts.flatMap fun sh => cfg.days.map fun d => (⟨n, rid, sh, d⟩ : VKey))) =
      (nurse_ids inp).map fun n =>
        ((room_ids inp).filter fun rid => decide (feasible inp n rid)).length *
          (cfg.shifts.length * cfg.days.length) := by
    refine List.map_congr_left ?_
    intro n _
    simp only [Function.comp_apply]
    exact hmid n
  rw [hmap]
  have hfactor : ((nurse_ids inp).map fun n =>
      ((room_ids inp).filter fun rid => decide (feasible inp n rid)).length *
        (cfg.shifts.length * cfg.days.length)).sum =
      ((nurse_ids inp).map fun n =>
        ((room_ids inp).filter fun rid => decide (feasible inp n rid)).length).sum *
        (cfg.shifts.length * cfg.days.length) := by
    generalize nurse_ids inp = ns
    induction ns with
    | nil => simp
    | cons a l ih => simp [ih]; ring
  rw [hfactor, sum_filter_swap (nurse_ids inp) (room_ids inp)
    (fun n rid => decide (feasible inp n rid))]
  ring

/-- A coverage slot (day, room id, shift). -/
abbrev Slot := String × String × String

/-- A valuation of every variable the model declares: the boolean
assignment variables (looked up by key; keys outside the dict are never
read by the constraints), the understaff/overstaff slack variables per
slot, and the fairness `tot`/`dev` variables per nurse. -/
structure Valuation where
  x : VKey → Bool
  u : Slot → Int
  o : Slot → Int
  tot : String → Int
  dev : String → Int

/-- `[x[(n, rid, sh, d)] for n in nurse_ids if (n, rid, sh, d) in x]`
summed: the assigned head count of a coverage slot. -/
def assignedSum (inp : Inputs) (cfg : Config) (xval : VKey → Bool) (d rid sh : String) : Int :=
  ((nurse_ids inp).map fun n =>
    if hasVar inp cfg ⟨n, rid, sh, d⟩ then bint (xval ⟨n, rid, sh, d⟩) else 0).sum

/-- `[x[k] for k in x if k[0] == n and k[3] == d]`. -/
def day_keys (inp : Inputs) (cfg : Config) (n d : String) : List VKey :=
  (xKeysD inp cfg).filter fun k => k.n == n && k.d == d

/-- `[x[k] for k in x if k[0] == n]`. -/
def week_keys (inp : Inputs) (cfg : Config) (n : String) : List VKey :=
  (xKeysD inp cfg).filter fun k => k.n == n

/-- `[x[k] for k in x if k[0] == n and k[2] == "Night" and k[3] == d]`. -/
def night_keys (inp : Inputs) (cfg : Config) (n d : String) : List VKey :=
  (xKeysD inp cfg).filter fun k => k.n == n && k.s == "Night" && k.d == d

/-- `[x[k] for k in x if k[0] == n and k[2] == "Day" and k[3] == d]`. -/
def dayshift_keys (inp : Inputs) (cfg : Config) (n d : String) : List VKey :=
  (xKeysD inp cfg).filter fun k => k.n == n && k.s == "Day" && k.d == d

/-- Daily-cap constraints: `model.Add(sum(vars_nd) <= max_per_day[n])`,
emitted only when the nurse has at least one variable on the day. -/
def DailyCapOk (inp : Inputs) (cfg : Config) (v : Valuation) : Prop :=
  ∀ n ∈ nurse_ids inp, ∀ d ∈ cfg.days,
    day_keys inp cfg n d ≠ [] →
      sumX (day_keys inp cfg n d) v.x ≤ max_per_day inp n

/-- Weekly-cap constraints, emitted only when the nurse has at least one
variable. -/
def WeeklyCapOk (inp : Inputs) (cfg : Config) (v : Valuation) : Prop :=
  ∀ n ∈ nurse_ids inp,
    week_keys inp cfg n ≠ [] →
      sumX (week_keys inp cfg n) v.x ≤ max_per_week inp n

/-- Coverage constraints with slack, together with the declared bounds
of the slack variables (`NewIntVar(0, 100, ...)`): per in-horizon slot,
`assigned + under - over == demand` when overstaffing is allowed, else
`assigned + under == demand`; the overstaff variable exists only in the
first case. -/
def CoverageOk (inp : Inputs) (cfg : Config) (v : Valuation) : Prop :=
  ∀ d ∈ cfg.days, ∀ rid ∈ room_ids inp, ∀ sh ∈ cfg.shifts,
    0 ≤ v.u (d, rid, sh) ∧ v.u (d, rid, sh) ≤ 100 ∧
      (cfg.allow_overstaff = true →
        0 ≤ v.o (d, rid, sh) ∧ v.o (d, rid, sh) ≤ 100 ∧
          assignedSum inp cfg v.x d rid sh + v.u (d, rid, sh) - v.o (d, rid, sh) =
            demandVal inp d rid sh) ∧
      (cfg.allow_overstaff = false →
        assignedSum inp cfg v.x d rid sh + v.u (d, rid, sh) = demandVal inp d rid sh)

/-- Rest-rule constraints: when enabled and both named shifts are
selected, for consecutive indices of the selected-day sequence,
`sum(night_vars) + sum(day_vars_next) <= 1`, emitted only when both
variable lists are non-empty.  The source realises `days[i]` through the
`day_index`/`inv_day` dict round trip, which is the identity exactly
when the day labels are distinct (with a duplicated label it would
raise a `KeyError` while building the model); the embedding uses
positional indexing, which coincides on distinct labels. -/
def RestOk (inp : Inputs) (cfg : Config) (v : Valuation) : Prop :=
  cfg.enforce_rest_night_to_day = true → "Night" ∈ cfg.shifts → "Day" ∈ cfg.shifts →
    ∀ n ∈ nurse_ids inp, ∀ i ∈ List.range (cfg.days.length - 1),
      night_keys inp cfg n (cfg.days.getD i "") ≠ [] →
      dayshift_keys inp cfg n (cfg.days.getD (i + 1) "") ≠ [] →
      sumX (night_keys inp cfg n (cfg.days.getD i "")) v.x +
        sumX (dayshift_keys inp cfg n (cfg.days.getD (i + 1) "")) v.x ≤ 1

/-- `charge_nurses`: nurses holding the "Charge" qualification. -/
def charge_nurses (inp : Inputs) : List String :=
  (nurse_ids inp).filter fun n => (qual_by_nurse inp n).contains "Charge"

/-- `charge_room_ids`: rooms whose tag lies in the configured set. -/
def charge_room_ids (inp : Inputs) (cfg : Config) : List String :=
  (room_ids inp).filter fun rid => cfg.charge_rooms_tags.contains (tag_by_room inp rid)

/-- The variables collected for one charge constraint (loop over charge
rooms, then charge nurses, keeping keys present in `x`). -/
def charge_assigned_keys (inp : Inputs) (cfg : Config) (sh d : String) : List VKey :=
  (charge_room_ids inp cfg).flatMap fun rid =>
    (charge_nurses inp).filterMap fun n =>
      if hasVar inp cfg ⟨n, rid, sh, d⟩ then some ⟨n, rid, sh, d⟩ else none

/-- Charge-coverage constraints: skipped entirely unless both lists are
non-empty; per (day, shift) with positive summed demand over charge
rooms and a non-empty variable list, require at least one assignment. -/
def ChargeOk (inp : Inputs) (cfg : Config) (v : Valuation) : Prop :=
  charge_room_ids inp cfg ≠ [] → charge_nurses inp ≠ [] →
    ∀ d ∈ cfg.days, ∀ sh ∈ cfg.shifts,
      0 < ((charge_room_ids inp cfg).map fun rid => demandVal inp d rid sh).sum →
      charge_assigned_keys inp cfg sh d ≠ [] →
      1 ≤ sumX (charge_assigned_keys inp cfg sh d) v.x

/-- `or_room_ids`: rooms tagged "OR". -/
def or_room_ids (inp : Inputs) : List String :=
  (room_ids inp).filter fun rid => tag_by_room inp rid == "OR"

/-- The CNOR-certified variables feasible for one OR slot. -/
def cnor_keys (inp : Inputs) (cfg : Config) (rid sh d : String) : List VKey :=
  (nurse_ids inp).filterMap fun n =>
    if cert_by_nurse inp n == "CNOR" && decide (hasVar inp cfg ⟨n, rid, sh, d⟩) then
      some ⟨n, rid, sh, d⟩
    else none

/-- Skill-mix constraints: when enabled, per OR room and slot with
positive demand and at least one feasible CNOR variable, require at
least one such assignment. -/
def CnorOk (inp : Inputs) (cfg : Config) (v : Valuation) : Prop :=
  cfg.require_cnor_in_or = true →
    ∀ d ∈ cfg.days, ∀ rid ∈ or_room_ids inp, ∀ sh ∈ cfg.shifts,
      0 < demandVal inp d rid sh →
      cnor_keys inp cfg rid sh d ≠ [] →
      1 ≤ sumX (cnor_keys inp cfg rid sh d) v.x

/-- The variable key a locks-dict key refers to. -/
def vkeyOfLock (k : LKey) : VKey :=
  ⟨k.n, k.r, k.s, k.d⟩

/-- Lock constraints: every locks-dict entry with value 1 whose key has
a variable forces that variable to 1 (`model.Add(x[key] == 1)`). -/
def LocksOk (inp : Inputs) (cfg : Config) (v : Valuation) : Prop :=
  ∀ p ∈ locks_dict inp.locks, p.2 = 1 → hasVar inp cfg (vkeyOfLock p.1) →
    v.x (vkeyOfLock p.1) = true

/-- Fairness constraints, emitted only when a weekly target is
configured: per nurse, the `tot` variable (bounds 0..1000) equals the
weekly sum and the `dev` variable (bounds 0..1000) dominates both signed
deviations from the target. -/
def FairnessOk (inp : Inputs) (cfg : Config) (v : Valuation) : Prop :=
  ∀ t ∈ cfg.target_shifts_per_nurse_week.toList, ∀ n ∈ nurse_ids inp,
    0 ≤ v.tot n ∧ v.tot n ≤ 1000 ∧ v.tot n = sumX (week_keys inp cfg n) v.x ∧
      0 ≤ v.dev n ∧ v.dev n ≤ 1000 ∧
      v.tot n - t ≤ v.dev n ∧ t - v.tot n ≤ v.dev n

/-- A valuation satisfies the assembled model: the conjunction of every
constraint family `solve_schedule_ortools` emits, in source order.  A
solution accepted by the backend solver is exactly such a valuation. -/
def SolutionValid (inp : Inputs) (cfg : Config) (v : Valuation) : Prop :=
  DailyCapOk inp cfg v ∧ WeeklyCapOk inp cfg v ∧ CoverageOk inp cfg v ∧
    RestOk inp cfg v ∧ ChargeOk inp cfg v ∧ CnorOk inp cfg v ∧
    LocksOk inp cfg v ∧ FairnessOk inp cfg v

instance instDecDailyCapOk (inp : Inputs) (cfg : Config) (v : Valuation) :
    Decidable (DailyCapOk inp cfg v) := by
  unfold DailyCapOk; infer_instance

instance instDecWeeklyCapOk (inp : Inputs) (cfg : Config) (v : Valuation) :
    Decidable (WeeklyCapOk inp cfg v) := by
  unfold WeeklyCapOk; infer_instance

instance instDecCoverageOk (inp : Inputs) (cfg : Config) (v : Valuation) :
    Decidable (CoverageOk inp cfg v) := by
  unfold CoverageOk; infer_instance

instance instDecRestOk (inp : Inputs) (cfg : Config) (v : Valuation) :
    Decidable (RestOk inp cfg v) := by
  unfold RestOk; infer_instance

instance instDecChargeOk (inp : Inputs) (cfg : Config) (v : Valuation) :
    Decidable (ChargeOk inp cfg v) := by
  unfold ChargeOk; infer_instance

instance instDecCnorOk (inp : Inputs) (cfg : Config) (v : Valuation) :
    Decidable (CnorOk inp cfg v) := by
  unfold CnorOk; infer_instance

instance instDecLocksOk (inp : Inputs) (cfg : Config) (v : Valuation) :
    Decidable (LocksOk inp cfg v) := by
  unfold LocksOk; infer_instance

instance instDecFairnessOk (inp : Inputs) (cfg : Config) (v : Valuation) :
    Decidable (FairnessOk inp cfg v) := by
  unfold FairnessOk; infer_instance

instance instDecSolutionValid (inp : Inputs) (cfg : Config) (v : Valuation) :
    Decidable (SolutionValid inp cfg v) := by
  unfold SolutionValid; infer_instance

/-- The errors the pipeline can raise.  `valueError` models a CPython
`ValueError` and carries exactly the interpreter's message;
`lockInfeasible` models the `RuntimeError` raised for a locked row with
no variable, which interpolates the (day, shift, room, nurse) tuple
into its message; `indexError` models the CPython `IndexError` raised
when `solver.Value` reads a variable from a response that holds no
solution (the response's solution list is empty). -/
inductive SchedulerError where
  | valueError (msg : String)
  | lockInfeasible (day shift room nurse : String)
  | indexError (msg : String)
deriving DecidableEq

/-- The error produced by `int(...)` on a pandas `NaN`: CPython's fixed
message, carrying no reference to any row or field. -/
def nanError : SchedulerError :=
  SchedulerError.valueError "cannot convert float NaN to integer"

/-- The error raised by reading a variable value out of a solution-less
solver response: indexing into the response's empty solution list. -/
def noSolutionError : SchedulerError :=
  SchedulerError.indexError "list index out of range"

/-- Convert one numeric column cell by cell, in row order, raising on
the first `NaN` (`int(nan)`). -/
def normalizeColumn : List (Option Int) → Except SchedulerError Unit
  | [] => Except.ok ()
  | some _ :: vs => normalizeColumn vs
  | none :: _ => Except.error nanError

/-- Exception propagation: run the second step only if the first did
not raise. -/
def andThen (a b : Except SchedulerError Unit) : Except SchedulerError Unit :=
  match a with
  | Except.error e => Except.error e
  | Except.ok _ => b

/-- The numeric conversions the source performs before the model is
constructed, in source order: `max_shifts_per_day` (line 67),
`max_shifts_per_week` (line 68), `required_nurses` (line 78),
`preference` (line 27 via `pref_lookup`), `locked` (line 34 via
`locks_lookup`). -/
def normalizeNumeric (inp : Inputs) : Except SchedulerError Unit :=
  andThen (normalizeColumn (inp.nurses.map fun r => r.max_shifts_per_day))
    (andThen (normalizeColumn (inp.nurses.map fun r => r.max_shifts_per_week))
      (andThen (normalizeColumn (inp.demand.map fun r => r.required_nurses))
        (andThen (normalizeColumn (inp.prefs.map fun r => r.preference))
          (normalizeColumn (inp.locks.map fun r => r.locked)))))

/-- The lock check of lines 186–193: iterate the locks dict in order;
the first entry with value 1 whose key has no variable raises, naming
day, shift, room and nurse. -/
def checkLocks (inp : Inputs) (cfg : Config) : Except SchedulerError Unit :=
  match (locks_dict inp.locks).find? fun p =>
      p.2 == 1 && !(decide (hasVar inp cfg (vkeyOfLock p.1))) with
  | some p => Except.error (SchedulerError.lockInfeasible p.1.d p.1.s p.1.r p.1.n)
  | none => Except.ok ()

/-- The CP-SAT status names the source can observe. -/
inductive Status where
  | OPTIMAL
  | FEASIBLE
  | INFEASIBLE
  | UNKNOWN
  | MODEL_INVALID
deriving DecidableEq

/-- A status for which the solver holds a solution. -/
def statusOk (st : Status) : Prop :=
  st = Status.OPTIMAL ∨ st = Status.FEASIBLE

instance instDecStatusOk (st : Status) : Decidable (statusOk st) := by
  unfold statusOk; infer_instance

/-- The backend solver, abstracted: a status, the valuation the
response would hold, and an objective value.  The valuation is NOT
directly readable: `solver.Value` succeeds only when the status carries
a solution, which `solverValueX` below enforces; the source reads
understaff/overstaff and the objective only under an explicit status
guard, so those guarded reads never raise. -/
structure SolverOracle where
  status : Status
  val : Valuation
  objective_value : Int

/-- `solver.Value(x[key])`: the variable's value when the response
holds a solution, otherwise the `IndexError` of indexing the empty
solution list. -/
def solverValueX (sol : SolverOracle) (k : VKey) : Except SchedulerError Bool :=
  if statusOk sol.status then Except.ok (sol.val.x k) else Except.error noSolutionError

/-- The `meta` dict: the status name, and the objective value only for
OPTIMAL or FEASIBLE. -/
structure Meta where
  status : Status
  objective : Option Int
deriving DecidableEq

/-- Lines 242–245. -/
def mkMeta (st : Status) (objVal : Int) : Meta :=
  ⟨st, if statusOk st then some objVal else none⟩

/-- One output schedule row. -/
structure Record where
  day : String
  room_id : String
  room_name : String
  shift : String
  required_nurses : Int
  assigned_nurses : String
  understaff : Option Int
  overstaff : Option Int
deriving DecidableEq

/-- `rooms_df.loc[rooms_df["room_id"] == rid, "room_name"].iloc[0]`:
the FIRST row with the id (unlike the dict lookups, which keep the
last). -/
def room_name_of (inp : Inputs) (rid : String) : String :=
  ((inp.rooms.find? fun r => r.room_id == rid).map fun r => r.room_name).getD ""

/-- The nurses reported assigned to a slot — nurse ids in column order
whose key is in `x` and whose variable is 1 — as the inner loop of
lines 252–256 produces them WHEN it completes (the fallible loop is
`assignedLoop`; it completes exactly when the status carries a solution
or the slot reads no variable at all). -/
def assigned_list (inp : Inputs) (cfg : Config) (xval : VKey → Bool) (d rid sh : String) :
    List String :=
  (nurse_ids inp).filter fun n =>
    decide (hasVar inp cfg ⟨n, rid, sh, d⟩) && xval ⟨n, rid, sh, d⟩

/-- The inner loop of lines 252–256: for each nurse id in order, if the
key is in `x`, read `solver.Value(x[key])` — an UNGUARDED read that
raises when the response holds no solution — and keep the id when the
value is 1. -/
def assignedLoop (inp : Inputs) (cfg : Config) (sol : SolverOracle) (d rid sh : String) :
    List String → Except SchedulerError (List String)
  | [] => Except.ok []
  | n :: ns =>
    if hasVar inp cfg ⟨n, rid, sh, d⟩ then
      match solverValueX sol ⟨n, rid, sh, d⟩ with
      | Except.error e => Except.error e
      | Except.ok b =>
        match assignedLoop inp cfg sol d rid sh ns with
        | Except.error e => Except.error e
        | Except.ok rest => Except.ok (if b then n :: rest else rest)
    else
      assignedLoop inp cfg sol d rid sh ns

/-- One output record (lines 257–266) as produced when the slot's inner
loop completes: slack values are reported only when the status carries a
solution (those reads are status-guarded in the source and never
raise), the overstaff one additionally only when overstaffing was
allowed. -/
def mkRecord (inp : Inputs) (cfg : Config) (sol : SolverOracle) (d rid sh : String) : Record :=
  { day := d
    room_id := rid
    room_name := room_name_of inp rid
    shift := sh
    required_nurses := demandVal inp d rid sh
    assigned_nurses := String.intercalate ";" (assigned_list inp cfg sol.val.x d rid sh)
    understaff := if statusOk sol.status then some (sol.val.u (d, rid, sh)) else none
    overstaff :=
      if cfg.allow_overstaff = true ∧ statusOk sol.status then some (sol.val.o (d, rid, sh))
      else none }

/-- One output record with the fallible inner loop: an exception in the
unguarded variable read propagates. -/
def mkRecordE (inp : Inputs) (cfg : Config) (sol : SolverOracle) (d rid sh : String) :
    Except SchedulerError Record :=
  match assignedLoop inp cfg sol d rid sh (nurse_ids inp) with
  | Except.error e => Except.error e
  | Except.ok assigned => Except.ok
      { day := d
        room_id := rid
        room_name := room_name_of inp rid
        shift := sh
        required_nurses := demandVal inp d rid sh
        assigned_nurses := String.intercalate ";" assigned
        understaff := if statusOk sol.status then some (sol.val.u (d, rid, sh)) else none
        overstaff :=
          if cfg.allow_overstaff = true ∧ statusOk sol.status then
            some (sol.val.o (d, rid, sh))
          else none }

/-- The record list the output loop produces WHEN it completes: one
record per (day, room, shift) of the selected horizon, in loop order. -/
def materialize (inp : Inputs) (cfg : Config) (sol : SolverOracle) : List Record :=
  cfg.days.flatMap fun d =>
    (room_ids inp).flatMap fun rid =>
      cfg.shifts.map fun sh => mkRecord inp cfg sol d rid sh

/-- The slot keys of the selected horizon, in output-loop order. -/
def slotList (inp : Inputs) (cfg : Config) : List (String × String × String) :=
  cfg.days.flatMap fun d =>
    (room_ids inp).flatMap fun rid =>
      cfg.shifts.map fun sh => (d, rid, sh)

/-- The output loop over the slots, stopping at the first slot whose
record construction raises. -/
def recordsLoop (inp : Inputs) (cfg : Config) (sol : SolverOracle) :
    List (String × String × String) → Except SchedulerError (List Record)
  | [] => Except.ok []
  | t :: rest =>
    match mkRecordE inp cfg sol t.1 t.2.1 t.2.2 with
    | Except.error e => Except.error e
    | Except.ok rec =>
      match recordsLoop inp cfg sol rest with
      | Except.error e => Except.error e
      | Except.ok recs => Except.ok (rec :: recs)

/-- The output loop of lines 248–266, faithful to its error behaviour:
the unguarded `solver.Value(x[key])` read raises whenever a slot has a
variable and the response holds no solution, aborting the whole loop. -/
def materializeE (inp : Inputs) (cfg : Config) (sol : SolverOracle) :
    Except SchedulerError (List Record) :=
  recordsLoop inp cfg sol (slotList inp cfg)

/-- The fallible part of `solve_schedule_ortools` around an abstract
backend: numeric conversion, then the lock check, then the output loop
(which can itself raise on a solution-less response).  Exceptions
propagate, so an error in any stage prevents any output. -/
def solveSchedule (inp : Inputs) (cfg : Config) (sol : SolverOracle) :
    Except SchedulerError (List Record × Meta) :=
  match normalizeNumeric inp with
  | Except.error e => Except.error e
  | Except.ok _ =>
    match checkLocks inp cfg with
    | Except.error e => Except.error e
    | Except.ok _ =>
      match materializeE inp cfg sol with
      | Except.error e => Except.error e
      | Except.ok recs => Except.ok (recs, mkMeta sol.status sol.objective_value)

/-- The number of variables that can feed a coverage slot. -/
def slotVarCount (inp : Inputs) (cfg : Config) (d rid sh : String) : Nat :=
  ((nurse_ids inp).filter fun n => decide (hasVar inp cfg ⟨n, rid, sh, d⟩)).length

theorem assignedSum_nonneg (inp : Inputs) (cfg : Config) (xval : VKey → Bool)
    (d rid sh : String) : 0 ≤ assignedSum inp cfg xval d rid sh := by
  unfold assignedSum
  generalize nurse_ids inp = ns
  induction ns with
  | nil => simp
  | cons a l ih =>
    rw [List.map_cons, List.sum_cons]
    by_cases h : hasVar inp cfg ⟨a, rid, sh, d⟩
    · have hb := bint_nonneg (xval ⟨a, rid, sh, d⟩)
      rw [if_pos h]
      omega
    · rw [if_neg h]
      omega

theorem assignedSum_le_slotVarCount (inp : Inputs) (cfg : Config) (xval : VKey → Bool)
    (d rid sh : String) :
    assignedSum inp cfg xval d rid sh ≤ (slotVarCount inp cfg d rid sh : Int) := by
  unfold assignedSum slotVarCount
  generalize nurse_ids inp = ns
  induction ns with
  | nil => simp
  | cons a l ih =>
    rw [List.map_cons, List.sum_cons, List.filter_cons]
    by_cases h : hasVar inp cfg ⟨a, rid, sh, d⟩
    · have hb := bint_le_one (xval ⟨a, rid, sh, d⟩)
      rw [if_pos h, decide_eq_true h, if_pos rfl, List.length_cons]
      push_cast
      omega
    · rw [if_neg h, decide_eq_false h]
      simp only [Bool.false_eq_true, if_false]
      omega

theorem sum_map_const_nat {α : Type} (l : List α) (c : Nat) :
    (l.map fun _ => c).sum = l.length * c := by
  induction l with
  | nil => simp
  | cons a m ih =>
    rw [List.map_cons, List.sum_cons, ih, List.length_cons]
    ring

theorem countP_eq_one_of_nodup {α : Type} [DecidableEq α] (l : List α) (hl : l.Nodup)
    (t : α) (ht : t ∈ l) :
    l.countP (fun x => decide (x = t)) = 1 := by
  induction l with
  | nil => cases ht
  | cons a m ih =>
    rw [List.countP_cons]
    rcases List.mem_cons.mp ht with rfl | hmem
    · have hz : m.countP (fun x => decide (x = t)) = 0 := by
        rw [List.countP_eq_zero]
        intro x hx
        have hne : x ≠ t := by
          intro h
          exact (List.nodup_cons.mp hl).1 (h ▸ hx)
        simpa using hne
      simp [hz]
    · have ha : ¬ (a = t) := by
        intro h
        exact (List.nodup_cons.mp hl).1 (h ▸ hmem)
      rw [ih (List.nodup_cons.mp hl).2 hmem]
      simp [ha]

theorem find_in_overwrite (m : List (LKey × Int)) (k : LKey) (v : Int)
    (h : ∃ p ∈ m, p.1 = k) :
    ((m.map fun p => if p.1 == k then (k, v) else p).find? fun p => p.1 == k) = some (k, v) := by
  induction m with
  | nil =>
    obtain ⟨p, hp, _⟩ := h
    cases hp
  | cons a m ih =>
    by_cases ha : a.1 = k
    · simp [List.map_cons, ha, List.find?_cons]
    · have h2 : ∃ p ∈ m, p.1 = k := by
        obtain ⟨p, hp, hpk⟩ := h
        rcases List.mem_cons.mp hp with rfl | hm
        · exact absurd hpk ha
        · exact ⟨p, hm, hpk⟩
      have hb : (a.1 == k) = false := by simpa using ha
      rw [List.map_cons]
      have hhead : (if a.1 == k then (k, v) else a) = a := by simp [hb]
      rw [hhead, List.find?_cons_of_neg]
      · exact ih h2
      · simp [hb]

theorem assoc_find_dictInsert (m : List (LKey × Int)) (k : LKey) (v : Int) :
    assoc_find (dictInsert m k v) k = some v := by
  unfold dictInsert
  by_cases h : (m.any fun p => p.1 == k) = true
  · rw [if_pos h]
    unfold assoc_find
    have hex : ∃ p ∈ m, p.1 = k := by
      obtain ⟨p, hp, hpk⟩ := List.any_eq_true.mp h
      exact ⟨p, hp, by simpa using hpk⟩
    rw [find_in_overwrite m k v hex]
    rfl
  · rw [if_neg h]
    unfold assoc_find
    have hnone : (m.find? fun p => p.1 == k) = none := by
      rw [List.find?_eq_none]
      intro p hp hpk
      exact h (List.any_eq_true.mpr ⟨p, hp, hpk⟩)
    simp [List.find?_append, hnone, List.find?_cons]

theorem andThen_eq_ok (a b : Except SchedulerError Unit) :
    andThen a b = Except.ok () ↔ a = Except.ok () ∧ b = Except.ok () := by
  cases a with
  | ok u =>
    cases u
    simp [andThen]
  | error e => simp [andThen]

theorem normalizeColumn_ok_iff (vs : List (Option Int)) :
    normalizeColumn vs = Except.ok () ↔ ∀ x ∈ vs, x ≠ none := by
  induction vs with
  | nil => simp [normalizeColumn]
  | cons a l ih =>
    cases a with
    | none => simp [normalizeColumn]
    | some b => simp [normalizeColumn, ih]

theorem normalizeColumn_cases (vs : List (Option Int)) :
    normalizeColumn vs = Except.ok () ∨ normalizeColumn vs = Except.error nanError := by
  induction vs with
  | nil => exact Or.inl rfl
  | cons a l ih =>
    cases a with
    | none => exact Or.inr rfl
    | some b => simpa [normalizeColumn] using ih

theorem andThen_cases (a b : Except SchedulerError Unit)
    (ha : a = Except.ok () ∨ a = Except.error nanError)
    (hb : b = Except.ok () ∨ b = Except.error nanError) :
    andThen a b = Except.ok () ∨ andThen a b = Except.error nanError := by
  rcases ha with ha | ha <;> rcases hb with hb | hb <;> simp [andThen, ha, hb]

theorem normalizeNumeric_ok_iff (inp : Inputs) :
    normalizeNumeric inp = Except.ok () ↔
      ((∀ r ∈ inp.nurses, r.max_shifts_per_day ≠ none) ∧
       (∀ r ∈ inp.nurses, r.max_shifts_per_week ≠ none) ∧
       (∀ r ∈ inp.demand, r.required_nurses ≠ none) ∧
       (∀ r ∈ inp.prefs, r.preference ≠ none) ∧
       (∀ r ∈ inp.locks, r.locked ≠ none)) := by
  unfold normalizeNumeric
  rw [andThen_eq_ok, andThen_eq_ok, andThen_eq_ok, andThen_eq_ok,
    normalizeColumn_ok_iff, normalizeColumn_ok_iff, normalizeColumn_ok_iff,
    normalizeColumn_ok_iff, normalizeColumn_ok_iff]
  simp

theorem normalizeNumeric_cases (inp : Inputs) :
    normalizeNumeric inp = Except.ok () ∨ normalizeNumeric inp = Except.error nanError := by
  unfold normalizeNumeric
  exact andThen_cases _ _ (normalizeColumn_cases _)
    (andThen_cases _ _ (normalizeColumn_cases _)
      (andThen_cases _ _ (normalizeColumn_cases _)
        (andThen_cases _ _ (normalizeColumn_cases _) (normalizeColumn_cases _))))

/-- A nurse qualified for ICU only, capped at 2 shifts/day and
10/week. -/
def exNurse : NurseRow := ⟨"N1", ["ICU"], none, some 2, some 10⟩

/-- A room requiring only ICU. -/
def exRoomA : RoomRow := ⟨"R1", "ICU Room", ["ICU"], none⟩

/-- A room requiring ICU and CNOR, hence infeasible for `exNurse`. -/
def exRoomB : RoomRow := ⟨"R2", "OR Suite", ["ICU", "CNOR"], none⟩

/-- One nurse, two rooms, demand 1 on the feasible room. -/
def exInp : Inputs := ⟨[exNurse], [exRoomA, exRoomB], [⟨"Mon", "R1", "Day", some 1⟩], [], []⟩

/-- A one-day, one-shift horizon without overstaffing. -/
def exCfg : Config := ⟨["Mon"], ["Day"], false, none, true, ["ICU", "ER"], true⟩

/-- The valuation assigning `exNurse` to room R1 everywhere, slack 0. -/
def exVal : Valuation :=
  ⟨fun k => k.n == "N1" && k.r == "R1", fun _ => 0, fun _ => 0, fun _ => 0, fun _ => 0⟩

/-- The all-zero valuation. -/
def exVal0 : Valuation := ⟨fun _ => false, fun _ => 0, fun _ => 0, fun _ => 0, fun _ => 0⟩

/-- Two days and both named shifts, rest rule armed, zero demand. -/
def exCfg2 : Config := ⟨["Mon", "Tue"], ["Day", "Night"], false, none, true, ["ICU", "ER"], true⟩

/-- One nurse, the feasible room, no demand rows. -/
def exInp2 : Inputs := ⟨[exNurse], [exRoomA], [], [], []⟩

/-- C1: a decision variable for (nurse, room, shift, day) over the
selected horizon exists if and only if the room's required
qualifications are a subset of the nurse's qualifications, and the
number of created variables equals
|days| * |shifts| * (sum over rooms of the count of feasible nurses). -/
theorem variable_space_sparse (inp : Inputs) (cfg : Config) :
    (∀ n ∈ nurse_ids inp, ∀ rid ∈ room_ids inp, ∀ sh ∈ cfg.shifts, ∀ d ∈ cfg.days,
      (hasVar inp cfg ⟨n, rid, sh, d⟩ ↔ feasible inp n rid)) ∧
    (xKeys inp cfg).length =
      cfg.days.length * cfg.shifts.length *
        ((room_ids inp).map fun rid =>
          ((nurse_ids inp).filter fun n => decide (feasible inp n rid)).length).sum := by
  refine ⟨?_, xKeys_length inp cfg⟩
  intro n hn rid hr sh hs d hd
  rw [hasVar, mem_xKeys]
  constructor
  · rintro ⟨-, -, -, -, hf⟩
    exact hf
  · intro hf
    exact ⟨hn, hr, hs, hd, hf⟩

/-- Witness for C1 at a concrete instance: the feasible pair has a
variable, and the iff transports feasibility. -/
theorem variable_space_sparse_witness :
    hasVar exInp exCfg ⟨"N1", "R1", "Day", "Mon"⟩ ↔ feasible exInp "N1" "R1" :=
  (variable_space_sparse exInp exCfg).1 "N1" (by decide) "R1" (by decide)
    "Day" (by decide) "Mon" (by decide)

/-- C2: every valid solution balances each in-horizon coverage slot —
with overstaffing allowed, assigned + understaff − overstaff = demand;
with it disallowed, assigned + understaff = demand, whence
assigned ≤ demand. -/
theorem coverage_balance (inp : Inputs) (cfg : Config) (v : Valuation)
    (hsol : SolutionValid inp cfg v) :
    ∀ d ∈ cfg.days, ∀ rid ∈ room_ids inp, ∀ sh ∈ cfg.shifts,
      (cfg.allow_overstaff = true →
        assignedSum inp cfg v.x d rid sh + v.u (d, rid, sh) - v.o (d, rid, sh) =
          demandVal inp d rid sh) ∧
      (cfg.allow_overstaff = false →
        assignedSum inp cfg v.x d rid sh + v.u (d, rid, sh) = demandVal inp d rid sh ∧
          assignedSum inp cfg v.x d rid sh ≤ demandVal inp d rid sh) := by
  intro d hd rid hr sh hs
  obtain ⟨hu0, hu100, hov, hnov⟩ := hsol.2.2.1 d hd rid hr sh hs
  refine ⟨fun h => (hov h).2.2, fun h => ⟨hnov h, ?_⟩⟩
  have := hnov h
  omega

/-- Witness for C2: on the concrete instance the slot balances and the
assignment never exceeds demand. -/
theorem coverage_balance_witness :
    assignedSum exInp exCfg exVal.x "Mon" "R1" "Day" + exVal.u ("Mon", "R1", "Day") =
      demandVal exInp "Mon" "R1" "Day" ∧
    assignedSum exInp exCfg exVal.x "Mon" "R1" "Day" ≤ demandVal exInp "Mon" "R1" "Day" :=
  (coverage_balance exInp exCfg exVal (by decide) "Mon" (by decide) "R1" (by decide)
    "Day" (by decide)).2 rfl

/-- C4: in every valid solution each nurse's assignment count is at
most the per-day cap on every selected day and at most the per-week cap
over the whole horizon (the caps being the nonnegative integers the
data model prescribes). -/
theorem nurse_caps (inp : Inputs) (cfg : Config) (v : Valuation)
    (hsol : SolutionValid inp cfg v)
    (hnn : ∀ n ∈ nurse_ids inp, 0 ≤ max_per_day inp n ∧ 0 ≤ max_per_week inp n) :
    ∀ n ∈ nurse_ids inp,
      (∀ d ∈ cfg.days,
        (((day_keys inp cfg n d).filter fun k => v.x k).length : Int) ≤ max_per_day inp n) ∧
      (((week_keys inp cfg n).filter fun k => v.x k).length : Int) ≤ max_per_week inp n := by
  intro n hn
  obtain ⟨hd0, hw0⟩ := hnn n hn
  constructor
  · intro d hd
    rw [← sumX_eq_filter_length]
    rcases eq_or_ne (day_keys inp cfg n d) [] with h | h
    · rw [h]
      simpa [sumX] using hd0
    · exact hsol.1 n hn d hd h
  · rw [← sumX_eq_filter_length]
    rcases eq_or_ne (week_keys inp cfg n) [] with h | h
    · rw [h]
      simpa [sumX] using hw0
    · exact hsol.2.1 n hn h

/-- Witness for C4 at the concrete instance. -/
theorem nurse_caps_witness :
    (((day_keys exInp exCfg "N1" "Mon").filter fun k => exVal.x k).length : Int) ≤
      max_per_day exInp "N1" :=
  ((nurse_caps exInp exCfg exVal (by decide) (by decide) "N1" (by decide)).1 "Mon" (by decide))

/-- C5: with the rest rule enabled and both Night and Day among the
selected shifts, no valid solution gives a nurse a Night assignment at
selection index i together with a Day assignment at selection index
i+1. -/
theorem rest_rule (inp : Inputs) (cfg : Config) (v : Valuation)
    (hsol : SolutionValid inp cfg v)
    (hrest : cfg.enforce_rest_night_to_day = true)
    (hN : "Night" ∈ cfg.shifts) (hD : "Day" ∈ cfg.shifts) :
    ∀ n ∈ nurse_ids inp, ∀ i ∈ List.range (cfg.days.length - 1),
      ¬ ((∃ kN ∈ night_keys inp cfg n (cfg.days.getD i ""), v.x kN = true) ∧
         (∃ kD ∈ dayshift_keys inp cfg n (cfg.days.getD (i + 1) ""), v.x kD = true)) := by
  intro n hn i hi
  rintro ⟨⟨kN, hkN, hxN⟩, ⟨kD, hkD, hxD⟩⟩
  have hne1 : night_keys inp cfg n (cfg.days.getD i "") ≠ [] := by
    intro h
    rw [h] at hkN
    exact absurd hkN (List.not_mem_nil _)
  have hne2 : dayshift_keys inp cfg n (cfg.days.getD (i + 1) "") ≠ [] := by
    intro h
    rw [h] at hkD
    exact absurd hkD (List.not_mem_nil _)
  have hc := hsol.2.2.2.1 hrest hN hD n hn i hi hne1 hne2
  have h1 := single_le_sumX _ v.x kN hkN hxN
  have h2 := single_le_sumX _ v.x kD hkD hxD
  omega

/-- Witness for C5: the all-zero solution of the two-day instance
satisfies the rest property at the consecutive pair (0, 1). -/
theorem rest_rule_witness :
    ¬ ((∃ kN ∈ night_keys exInp2 exCfg2 "N1" (exCfg2.days.getD 0 ""), exVal0.x kN = true) ∧
       (∃ kD ∈ dayshift_keys exInp2 exCfg2 "N1" (exCfg2.days.getD (0 + 1) ""),
          exVal0.x kD = true)) :=
  rest_rule exInp2 exCfg2 exVal0 (by decide) rfl (by decide) (by decide)
    "N1" (by decide) 0 (by decide)

/-- C9: in every valid solution each understaff slack lies in [0, 100]
and each overstaff slack (when overstaffing is allowed) lies in
[0, 100]; consequently a slot whose demand exceeds its assignable
variable count by more than 100 admits no valid solution at all. -/
theorem slack_bounds (inp : Inputs) (cfg : Config) (v : Valuation)
    (hsol : SolutionValid inp cfg v) :
    ∀ d ∈ cfg.days, ∀ rid ∈ room_ids inp, ∀ sh ∈ cfg.shifts,
      (0 ≤ v.u (d, rid, sh) ∧ v.u (d, rid, sh) ≤ 100) ∧
      (cfg.allow_overstaff = true → 0 ≤ v.o (d, rid, sh) ∧ v.o (d, rid, sh) ≤ 100) ∧
      ((slotVarCount inp cfg d rid sh : Int) + 100 < demandVal inp d rid sh → False) := by
  intro d hd rid hr sh hs
  obtain ⟨hu0, hu100, hov, hnov⟩ := hsol.2.2.1 d hd rid hr sh hs
  have hle := assignedSum_le_slotVarCount inp cfg v.x d rid sh
  refine ⟨⟨hu0, hu100⟩, fun h => ⟨(hov h).1, (hov h).2.1⟩, fun hbig => ?_⟩
  cases hb : cfg.allow_overstaff with
  | true =>
    have := hov hb
    omega
  | false =>
    have := hnov hb
    omega

/-- Witness for C9 at the concrete instance. -/
theorem slack_bounds_witness :
    0 ≤ exVal.u ("Mon", "R1", "Day") ∧ exVal.u ("Mon", "R1", "Day") ≤ 100 :=
  ((slack_bounds exInp exCfg exVal (by decide) "Mon" (by decide) "R1" (by decide)
    "Day" (by decide)).1)

/-- Locks of the C3 witness: one satisfiable lock on the feasible room
and one lock on the room the nurse is not qualified for. -/
def c3locks : List LockRow :=
  [⟨"Mon", "Day", "R1", "N1", some 1⟩, ⟨"Mon", "Day", "R2", "N1", some 1⟩]

/-- Inputs of the C3 witness. -/
def c3inp : Inputs :=
  ⟨[exNurse], [exRoomA, exRoomB], [⟨"Mon", "R1", "Day", some 1⟩], [], c3locks⟩

/-- C3: every locks-dict entry with value 1 whose key has a decision
variable is pinned to 1 in every valid solution; and if some entry with
value 1 has no variable (nurse not qualified for the room, or
identifiers resolving to nothing), the pre-solve lock check — hence the
whole solve, for every backend oracle — fails with an error naming the
day, shift, room and nurse of an offending lock, before any output is
produced. -/
theorem locks_pinned_or_fail (inp : Inputs) (cfg : Config) :
    (∀ v : Valuation, SolutionValid inp cfg v →
      ∀ p ∈ locks_dict inp.locks, p.2 = 1 → hasVar inp cfg (vkeyOfLock p.1) →
        v.x (vkeyOfLock p.1) = true) ∧
    ((∃ p ∈ locks_dict inp.locks, p.2 = 1 ∧ ¬ hasVar inp cfg (vkeyOfLock p.1)) →
      ∃ q ∈ locks_dict inp.locks, q.2 = 1 ∧ ¬ hasVar inp cfg (vkeyOfLock q.1) ∧
        checkLocks inp cfg =
          Except.error (SchedulerError.lockInfeasible q.1.d q.1.s q.1.r q.1.n) ∧
        ∀ sol : SolverOracle, normalizeNumeric inp = Except.ok () →
          solveSchedule inp cfg sol =
            Except.error (SchedulerError.lockInfeasible q.1.d q.1.s q.1.r q.1.n)) := by
  constructor
  · intro v hsol p hp h1 h2
    exact hsol.2.2.2.2.2.2.1 p hp h1 h2
  · rintro ⟨p, hp, hp1, hpn⟩
    have hsome : ((locks_dict inp.locks).find? fun q =>
        q.2 == 1 && !(decide (hasVar inp cfg (vkeyOfLock q.1)))).isSome := by
      rw [List.find?_isSome]
      refine ⟨p, hp, ?_⟩
      simp [hp1, hpn]
    obtain ⟨q, hq⟩ := Option.isSome_iff_exists.mp hsome
    have hqmem := List.mem_of_find?_eq_some hq
    have hqpred := List.find?_some hq
    rw [Bool.and_eq_true] at hqpred
    have hq1 : q.2 = 1 := by simpa using hqpred.1
    have hqn : ¬ hasVar inp cfg (vkeyOfLock q.1) := by simpa using hqpred.2
    have hcl : checkLocks inp cfg =
        Except.error (SchedulerError.lockInfeasible q.1.d q.1.s q.1.r q.1.n) := by
      unfold checkLocks
      rw [hq]
    refine ⟨q, hqmem, hq1, hqn, hcl, ?_⟩
    intro sol hnorm
    unfold solveSchedule
    rw [hnorm, hcl]

/-- Witness for C3: on the concrete instance the satisfiable lock is
pinned in the explicit valid solution. -/
theorem locks_pinned_or_fail_witness :
    exVal.x (vkeyOfLock ⟨"Mon", "Day", "R1", "N1"⟩) = true :=
  (locks_pinned_or_fail c3inp exCfg).1 exVal (by decide)
    (⟨"Mon", "Day", "R1", "N1"⟩, 1) (by decide) rfl (by decide)

/-- Inputs of the C6 scenario: one nurse qualified for ICU only, one
room requiring {ICU, CNOR}, demand 1. -/
def c6inp : Inputs := ⟨[exNurse], [exRoomB], [⟨"Mon", "R2", "Day", some 1⟩], [], []⟩

/-- The valuation absorbing the C6 shortfall into understaff. -/
def c6val : Valuation := ⟨fun _ => false, fun _ => 1, fun _ => 0, fun _ => 0, fun _ => 0⟩

/-- C6: a room whose requirements no nurse meets produces zero
variables yet no hard failure: the numeric and lock checks pass, the
model is satisfiable (witnessed by an explicit valuation), and every
valid solution reports assigned count 0 and understaff exactly 1 on
the demanded slot. -/
theorem unstaffable_room_absorbed :
    xKeys c6inp exCfg = [] ∧
    normalizeNumeric c6inp = Except.ok () ∧
    checkLocks c6inp exCfg = Except.ok () ∧
    SolutionValid c6inp exCfg c6val ∧
    (∀ v : Valuation, SolutionValid c6inp exCfg v →
      assignedSum c6inp exCfg v.x "Mon" "R2" "Day" = 0 ∧ v.u ("Mon", "R2", "Day") = 1) := by
  refine ⟨by decide, rfl, rfl, by decide, ?_⟩
  intro v hv
  have hnv : ¬ hasVar c6inp exCfg ⟨"N1", "R2", "Day", "Mon"⟩ := by decide
  have hids : nurse_ids c6inp = ["N1"] := rfl
  have h0 : assignedSum c6inp exCfg v.x "Mon" "R2" "Day" = 0 := by
    unfold assignedSum
    rw [hids]
    simp [hnv]
  obtain ⟨hu0, hu100, hov, hnov⟩ :=
    hv.2.2.1 "Mon" (by decide) "R2" (by decide) "Day" (by decide)
  have heq := hnov rfl
  have hdm : demandVal c6inp "Mon" "R2" "Day" = 1 := by decide
  exact ⟨h0, by omega⟩

/-- Witness for C6: the explicit valuation realises the reported
values. -/
theorem unstaffable_room_absorbed_witness :
    assignedSum c6inp exCfg c6val.x "Mon" "R2" "Day" = 0 ∧ c6val.u ("Mon", "R2", "Day") = 1 :=
  unstaffable_room_absorbed.2.2.2.2 c6val (by decide)

/-- Inputs whose FIRST nurse row is missing `max_shifts_per_day`. -/
def c7inpA : Inputs :=
  ⟨[⟨"N1", ["ICU"], none, none, some 5⟩, ⟨"N2", ["ICU"], none, some 2, some 5⟩], [], [], [], []⟩

/-- Inputs whose SECOND nurse row is missing `max_shifts_per_week`. -/
def c7inpB : Inputs :=
  ⟨[⟨"N1", ["ICU"], none, some 2, some 5⟩, ⟨"N2", ["ICU"], none, some 2, none⟩], [], [], [], []⟩

/-- C7 counterexample: two inputs whose missing numeric cell lies in a
different row AND a different field produce the identical error value —
the conversion error carries CPython's fixed message and therefore
identifies neither the offending row nor the field, contrary to the
claimed row-and-field-identifying `MalformedInputError`. -/
theorem malformed_error_not_identifying :
    normalizeNumeric c7inpA = Except.error nanError ∧
    normalizeNumeric c7inpB = Except.error nanError ∧
    c7inpA ≠ c7inpB := by
  exact ⟨rfl, rfl, by decide⟩

/-- C7 amended: a missing numeric field (a `NaN` cell in any of the
five converted columns) makes the conversion step — which precedes
model construction — fail, and the whole solve then returns that same
error for every backend oracle; but the error is the generic
`int(nan)` conversion error, not a row-and-field-identifying one. -/
theorem missing_numeric_fails_fast (inp : Inputs) (cfg : Config)
    (h : (∃ r ∈ inp.nurses, r.max_shifts_per_day = none) ∨
         (∃ r ∈ inp.nurses, r.max_shifts_per_week = none) ∨
         (∃ r ∈ inp.demand, r.required_nurses = none) ∨
         (∃ r ∈ inp.prefs, r.preference = none) ∨
         (∃ r ∈ inp.locks, r.locked = none)) :
    normalizeNumeric inp = Except.error nanError ∧
      ∀ sol : SolverOracle, solveSchedule inp cfg sol = Except.error nanError := by
  have hok : normalizeNumeric inp ≠ Except.ok () := by
    rw [Ne, normalizeNumeric_ok_iff]
    rintro ⟨h1, h2, h3, h4, h5⟩
    rcases h with ⟨r, hr, he⟩ | ⟨r, hr, he⟩ | ⟨r, hr, he⟩ | ⟨r, hr, he⟩ | ⟨r, hr, he⟩
    · exact h1 r hr he
    · exact h2 r hr he
    · exact h3 r hr he
    · exact h4 r hr he
    · exact h5 r hr he
  rcases normalizeNumeric_cases inp with hc | hc
  · exact absurd hc hok
  · refine ⟨hc, fun sol => ?_⟩
    unfold solveSchedule
    rw [hc]

/-- Witness for the amended C7 at a concrete input. -/
theorem missing_numeric_fails_fast_witness :
    normalizeNumeric c7inpA = Except.error nanError :=
  (missing_numeric_fails_fast c7inpA exCfg (by decide)).1

/-- C10: appending a row whose key already occurs makes the demand,
preference and locks lookups all return the appended row's value — the
later duplicate silently overrides every earlier row with the same
key, duplicates being neither rejected nor aggregated. -/
theorem duplicate_rows_last_wins
    (drows : List DemandRow) (dr : DemandRow)
    (prows : List PrefRow) (pr : PrefRow)
    (lrows : List LockRow) (lr : LockRow) :
    demand_lookup (drows ++ [dr]) dr.day dr.room_id dr.shift = dr.required_nurses.getD 0 ∧
    pref_map (prows ++ [pr]) pr.nurse_id pr.day pr.shift = some (pr.preference.getD 0) ∧
    assoc_find (locks_dict (lrows ++ [lr])) ⟨lr.day, lr.shift, lr.room_id, lr.nurse_id⟩ =
      some (lr.locked.getD 0) := by
  refine ⟨?_, ?_, ?_⟩
  · unfold demand_lookup
    rw [List.reverse_append]
    simp [List.find?_cons]
  · unfold pref_map
    rw [List.reverse_append]
    simp [List.find?_cons]
  · unfold locks_dict
    rw [List.foldl_append]
    simp only [List.foldl_cons, List.foldl_nil]
    exact assoc_find_dictInsert _ _ _

/-- The (day, room, shift) key of an output record. -/
def recKey (rec : Record) : String × String × String :=
  (rec.day, rec.room_id, rec.shift)

theorem materialize_map_recKey (inp : Inputs) (cfg : Config) (sol : SolverOracle) :
    (materialize inp cfg sol).map recKey = slotList inp cfg := by
  unfold materialize slotList
  simp [List.map_flatMap, List.map_map, Function.comp_def, recKey, mkRecord]

theorem slotList_nodup (inp : Inputs) (cfg : Config) (hd : cfg.days.Nodup)
    (hr : (room_ids inp).Nodup) (hs : cfg.shifts.Nodup) : (slotList inp cfg).Nodup := by
  unfold slotList
  rw [List.nodup_flatMap]
  constructor
  · intro d _
    rw [List.nodup_flatMap]
    constructor
    · intro rid _
      refine List.Nodup.map ?_ hs
      intro a b hab
      injection hab with h1 h2
      injection h2
    · refine List.Pairwise.imp ?_ hr
      intro a b hne x hx1 hx2
      obtain ⟨s1, _, rfl⟩ := List.mem_map.mp hx1
      obtain ⟨s2, _, he⟩ := List.mem_map.mp hx2
      injection he with h1 h2
      injection h2 with h3 h4
      exact hne h3.symm
  · refine List.Pairwise.imp ?_ hd
    intro a b hne x hx1 hx2
    obtain ⟨rid1, _, hm1⟩ := List.mem_flatMap.mp hx1
    obtain ⟨s1, _, rfl⟩ := List.mem_map.mp hm1
    obtain ⟨rid2, _, hm2⟩ := List.mem_flatMap.mp hx2
    obtain ⟨s2, _, he⟩ := List.mem_map.mp hm2
    injection he with h1 h2
    exact hne h1.symm

theorem materialize_length (inp : Inputs) (cfg : Config) (sol : SolverOracle) :
    (materialize inp cfg sol).length =
      cfg.days.length * (room_ids inp).length * cfg.shifts.length := by
  unfold materialize
  rw [List.length_flatMap]
  have hinner : ∀ d : String,
      ((room_ids inp).flatMap fun rid =>
        cfg.shifts.map fun sh => mkRecord inp cfg sol d rid sh).length =
        (room_ids inp).length * cfg.shifts.length := by
    intro d
    rw [List.length_flatMap]
    have hmapc : ((room_ids inp).map (List.length ∘ fun rid =>
        cfg.shifts.map fun sh => mkRecord inp cfg sol d rid sh)) =
        (room_ids inp).map fun _ => cfg.shifts.length := by
      refine List.map_congr_left ?_
      intro rid _
      simp [Function.comp_apply]
    rw [hmapc, sum_map_const_nat]
  have houter : (cfg.days.map (List.length ∘ fun d =>
      (room_ids inp).flatMap fun rid =>
        cfg.shifts.map fun sh => mkRecord inp cfg sol d rid sh)) =
      cfg.days.map fun _ => (room_ids inp).length * cfg.shifts.length := by
    refine List.map_congr_left ?_
    intro d _
    simp only [Function.comp_apply]
    exact hinner d
  rw [houter, sum_map_const_nat]
  ring

/-- Field-level description of the record list produced WHEN the output
loop completes: one record per (selected day, room, selected shift)
including zero-demand slots — the record count is the full product and,
with distinct labels, the record carrying a given key is unique — each
record reporting the first-matching room name, the defaulted demand,
the semicolon-joined assigned nurse ids, and the understaff/overstaff
slack exactly when the status is OPTIMAL or FEASIBLE (overstaff
additionally requiring overstaffing allowed); the solve-summary
objective is likewise present exactly for such a status. -/
theorem materialize_records_fields (inp : Inputs) (cfg : Config) (sol : SolverOracle)
    (hd : cfg.days.Nodup) (hr : (room_ids inp).Nodup) (hs : cfg.shifts.Nodup) :
    (materialize inp cfg sol).length =
      cfg.days.length * (room_ids inp).length * cfg.shifts.length ∧
    (∀ d ∈ cfg.days, ∀ rid ∈ room_ids inp, ∀ sh ∈ cfg.shifts,
      (materialize inp cfg sol).countP (fun rec => decide (recKey rec = (d, rid, sh))) = 1 ∧
      ∀ rec ∈ materialize inp cfg sol, recKey rec = (d, rid, sh) →
        rec.room_name = room_name_of inp rid ∧
        rec.required_nurses = demandVal inp d rid sh ∧
        rec.assigned_nurses =
          String.intercalate ";" (assigned_list inp cfg sol.val.x d rid sh) ∧
        rec.understaff =
          (if statusOk sol.status then some (sol.val.u (d, rid, sh)) else none) ∧
        rec.overstaff =
          (if cfg.allow_overstaff = true ∧ statusOk sol.status then
            some (sol.val.o (d, rid, sh)) else none)) ∧
    (mkMeta sol.status sol.objective_value).objective =
      (if statusOk sol.status then some sol.objective_value else none) := by
  refine ⟨materialize_length inp cfg sol, ?_, rfl⟩
  intro d hdm rid hrm sh hsm
  constructor
  · have h1 : (materialize inp cfg sol).countP
        (fun rec => decide (recKey rec = (d, rid, sh))) =
        ((materialize inp cfg sol).map recKey).countP (fun t => decide (t = (d, rid, sh))) := by
      rw [List.countP_map]
      rfl
    rw [h1, materialize_map_recKey]
    refine countP_eq_one_of_nodup _ (slotList_nodup inp cfg hd hr hs) _ ?_
    unfold slotList
    rw [List.mem_flatMap]
    refine ⟨d, hdm, ?_⟩
    rw [List.mem_flatMap]
    refine ⟨rid, hrm, ?_⟩
    rw [List.mem_map]
    exact ⟨sh, hsm, rfl⟩
  · intro rec hrec hkey
    unfold materialize at hrec
    obtain ⟨d1, hd1, hrest⟩ := List.mem_flatMap.mp hrec
    obtain ⟨rid1, hr1, hrest2⟩ := List.mem_flatMap.mp hrest
    obtain ⟨sh1, hs1, rfl⟩ := List.mem_map.mp hrest2
    have hk : (d1, rid1, sh1) = (d, rid, sh) := hkey
    injection hk with h1 h2
    injection h2 with h3 h4
    subst h1
    subst h3
    subst h4
    exact ⟨rfl, rfl, rfl, rfl, rfl⟩

theorem assignedLoop_ok (inp : Inputs) (cfg : Config) (sol : SolverOracle)
    (d rid sh : String) (ns : List String)
    (h : statusOk sol.status ∨ ∀ n ∈ ns, ¬ hasVar inp cfg ⟨n, rid, sh, d⟩) :
    assignedLoop inp cfg sol d rid sh ns =
      Except.ok (ns.filter fun n =>
        decide (hasVar inp cfg ⟨n, rid, sh, d⟩) && sol.val.x ⟨n, rid, sh, d⟩) := by
  induction ns with
  | nil => rfl
  | cons a ns ih =>
    have htail : statusOk sol.status ∨ ∀ n ∈ ns, ¬ hasVar inp cfg ⟨n, rid, sh, d⟩ := by
      rcases h with hst | hall
      · exact Or.inl hst
      · exact Or.inr fun n hn => hall n (List.mem_cons_of_mem a hn)
    by_cases ha : hasVar inp cfg ⟨a, rid, sh, d⟩
    · have hst : statusOk sol.status := by
        rcases h with hst | hall
        · exact hst
        · exact absurd ha (hall a (List.mem_cons_self a ns))
      have hsv : solverValueX sol ⟨a, rid, sh, d⟩ = Except.ok (sol.val.x ⟨a, rid, sh, d⟩) := by
        unfold solverValueX
        rw [if_pos hst]
      simp only [assignedLoop, ha, if_true, hsv, ih htail, List.filter_cons,
        decide_eq_true ha, Bool.true_and]
      cases hx : sol.val.x ⟨a, rid, sh, d⟩ <;> simp
    · simp [assignedLoop, ha, ih htail, List.filter_cons]

theorem assignedLoop_error (inp : Inputs) (cfg : Config) (sol : SolverOracle)
    (d rid sh : String) (ns : List String)
    (hst : ¬ statusOk sol.status)
    (h : ∃ n ∈ ns, hasVar inp cfg ⟨n, rid, sh, d⟩) :
    assignedLoop inp cfg sol d rid sh ns = Except.error noSolutionError := by
  induction ns with
  | nil =>
    obtain ⟨n, hn, -⟩ := h
    cases hn
  | cons a ns ih =>
    by_cases ha : hasVar inp cfg ⟨a, rid, sh, d⟩
    · have hsv : solverValueX sol ⟨a, rid, sh, d⟩ = Except.error noSolutionError := by
        unfold solverValueX
        rw [if_neg hst]
      simp [assignedLoop, ha, hsv]
    · obtain ⟨n, hn, hnv⟩ := h
      rcases List.mem_cons.mp hn with rfl | hmem
      · exact absurd hnv ha
      · simp [assignedLoop, ha, ih ⟨n, hmem, hnv⟩]

theorem assignedLoop_cases (inp : Inputs) (cfg : Config) (sol : SolverOracle)
    (d rid sh : String) (ns : List String) :
    (∃ l, assignedLoop inp cfg sol d rid sh ns = Except.ok l) ∨
      assignedLoop inp cfg sol d rid sh ns = Except.error noSolutionError := by
  induction ns with
  | nil => exact Or.inl ⟨[], rfl⟩
  | cons a ns ih =>
    by_cases ha : hasVar inp cfg ⟨a, rid, sh, d⟩
    · by_cases hst : statusOk sol.status
      · have hsv : solverValueX sol ⟨a, rid, sh, d⟩ =
            Except.ok (sol.val.x ⟨a, rid, sh, d⟩) := by
          unfold solverValueX
          rw [if_pos hst]
        rcases ih with ⟨l, hl⟩ | hl
        · refine Or.inl ⟨if sol.val.x ⟨a, rid, sh, d⟩ = true then a :: l else l, ?_⟩
          simp [assignedLoop, ha, hsv, hl]
        · exact Or.inr (by simp [assignedLoop, ha, hsv, hl])
      · have hsv : solverValueX sol ⟨a, rid, sh, d⟩ = Except.error noSolutionError := by
          unfold solverValueX
          rw [if_neg hst]
        exact Or.inr (by simp [assignedLoop, ha, hsv])
    · rcases ih with ⟨l, hl⟩ | hl
      · exact Or.inl ⟨l, by simp [assignedLoop, ha, hl]⟩
      · exact Or.inr (by simp [assignedLoop, ha, hl])

theorem mkRecordE_cases (inp : Inputs) (cfg : Config) (sol : SolverOracle) (d rid sh : String) :
    (∃ rec, mkRecordE inp cfg sol d rid sh = Except.ok rec) ∨
      mkRecordE inp cfg sol d rid sh = Except.error noSolutionError := by
  rcases assignedLoop_cases inp cfg sol d rid sh (nurse_ids inp) with ⟨l, hl⟩ | hl
  · refine Or.inl ?_
    unfold mkRecordE
    rw [hl]
    exact ⟨_, rfl⟩
  · refine Or.inr ?_
    unfold mkRecordE
    rw [hl]

theorem recordsLoop_ok (inp : Inputs) (cfg : Config) (sol : SolverOracle)
    (slots : List (String × String × String))
    (h : ∀ t ∈ slots, mkRecordE inp cfg sol t.1 t.2.1 t.2.2 =
      Except.ok (mkRecord inp cfg sol t.1 t.2.1 t.2.2)) :
    recordsLoop inp cfg sol slots =
      Except.ok (slots.map fun t => mkRecord inp cfg sol t.1 t.2.1 t.2.2) := by
  induction slots with
  | nil => rfl
  | cons t rest ih =>
    have hh := h t (List.mem_cons_self t rest)
    have ht := ih fun q hq => h q (List.mem_cons_of_mem t hq)
    simp [recordsLoop, hh, ht]

theorem recordsLoop_error (inp : Inputs) (cfg : Config) (sol : SolverOracle)
    (slots : List (String × String × String))
    (h : ∃ t ∈ slots, mkRecordE inp cfg sol t.1 t.2.1 t.2.2 = Except.error noSolutionError) :
    recordsLoop inp cfg sol slots = Except.error noSolutionError := by
  induction slots with
  | nil =>
    obtain ⟨t, ht, -⟩ := h
    cases ht
  | cons a rest ih =>
    rcases mkRecordE_cases inp cfg sol a.1 a.2.1 a.2.2 with ⟨rec, hrec⟩ | hrec
    · obtain ⟨t, ht, hterr⟩ := h
      rcases List.mem_cons.mp ht with rfl | hmem
      · rw [hrec] at hterr
        cases hterr
      · simp [recordsLoop, hrec, ih ⟨t, hmem, hterr⟩]
    · simp [recordsLoop, hrec]

theorem materialize_eq_map_slotList (inp : Inputs) (cfg : Config) (sol : SolverOracle) :
    materialize inp cfg sol =
      (slotList inp cfg).map fun t => mkRecord inp cfg sol t.1 t.2.1 t.2.2 := by
  unfold materialize slotList
  simp [List.map_flatMap, List.map_map, Function.comp_def]

theorem materializeE_ok (inp : Inputs) (cfg : Config) (sol : SolverOracle)
    (h : statusOk sol.status ∨ xKeys inp cfg = []) :
    materializeE inp cfg sol = Except.ok (materialize inp cfg sol) := by
  unfold materializeE
  rw [materialize_eq_map_slotList]
  apply recordsLoop_ok
  intro t _
  unfold mkRecordE
  rw [assignedLoop_ok]
  · rfl
  · rcases h with hst | hempty
    · exact Or.inl hst
    · refine Or.inr fun n _ hvar => ?_
      rw [hasVar, hempty] at hvar
      cases hvar

theorem materializeE_error (inp : Inputs) (cfg : Config) (sol : SolverOracle)
    (hst : ¬ statusOk sol.status) (hne : xKeys inp cfg ≠ []) :
    materializeE inp cfg sol = Except.error noSolutionError := by
  obtain ⟨k, hk⟩ := List.exists_mem_of_ne_nil _ hne
  have hmem := (mem_xKeys inp cfg k).mp hk
  unfold materializeE
  apply recordsLoop_error
  refine ⟨(k.d, k.r, k.s), ?_, ?_⟩
  · unfold slotList
    rw [List.mem_flatMap]
    refine ⟨k.d, hmem.2.2.2.1, ?_⟩
    rw [List.mem_flatMap]
    refine ⟨k.r, hmem.2.1, ?_⟩
    rw [List.mem_map]
    exact ⟨k.s, hmem.2.2.1, rfl⟩
  · unfold mkRecordE
    rw [assignedLoop_error inp cfg sol k.d k.r k.s (nurse_ids inp) hst ⟨k.n, hmem.1, hk⟩]

/-- C8 (corrected): records are produced exactly when the status is
OPTIMAL or FEASIBLE, or when no decision variable exists (the only
case in which the unguarded `solver.Value(x[key])` read of line 255 is
never reached); then there is one record per (selected day, room,
selected shift) with the first-matching room name, the defaulted
demand, the semicolon-joined assigned nurse ids, and the slack values
present exactly for a solution-carrying status.  When the status
carries no solution and at least one decision variable exists, the
output loop raises reading a variable from the solution-less response
and the solve returns that error instead of any records.  The
solve-summary objective is present exactly for a solution-carrying
status. -/
theorem result_records_or_value_error (inp : Inputs) (cfg : Config) (sol : SolverOracle)
    (hd : cfg.days.Nodup) (hr : (room_ids inp).Nodup) (hs : cfg.shifts.Nodup) :
    ((statusOk sol.status ∨ xKeys inp cfg = []) →
      materializeE inp cfg sol = Except.ok (materialize inp cfg sol) ∧
      (materialize inp cfg sol).length =
        cfg.days.length * (room_ids inp).length * cfg.shifts.length ∧
      (∀ d ∈ cfg.days, ∀ rid ∈ room_ids inp, ∀ sh ∈ cfg.shifts,
        (materialize inp cfg sol).countP
          (fun rec => decide (recKey rec = (d, rid, sh))) = 1 ∧
        ∀ rec ∈ materialize inp cfg sol, recKey rec = (d, rid, sh) →
          rec.room_name = room_name_of inp rid ∧
          rec.required_nurses = demandVal inp d rid sh ∧
          rec.assigned_nurses =
            String.intercalate ";" (assigned_list inp cfg sol.val.x d rid sh) ∧
          rec.understaff =
            (if statusOk sol.status then some (sol.val.u (d, rid, sh)) else none) ∧
          rec.overstaff =
            (if cfg.allow_overstaff = true ∧ statusOk sol.status then
              some (sol.val.o (d, rid, sh)) else none))) ∧
    (¬ statusOk sol.status → xKeys inp cfg ≠ [] →
      materializeE inp cfg sol = Except.error noSolutionError ∧
      ∀ res : List Record × Meta, solveSchedule inp cfg sol ≠ Except.ok res) ∧
    (mkMeta sol.status sol.objective_value).objective =
      (if statusOk sol.status then some sol.objective_value else none) := by
  obtain ⟨hlen, hslots, hmeta⟩ := materialize_records_fields inp cfg sol hd hr hs
  refine ⟨fun h => ⟨materializeE_ok inp cfg sol h, hlen, hslots⟩, ?_, hmeta⟩
  intro hst hne
  have herr := materializeE_error inp cfg sol hst hne
  refine ⟨herr, ?_⟩
  intro res
  unfold solveSchedule
  cases hn : normalizeNumeric inp with
  | error e => simp
  | ok u =>
    cases u
    cases hc : checkLocks inp cfg with
    | error e => simp
    | ok u2 =>
      cases u2
      rw [herr]
      simp

/-- The backend oracle of the C8 witness: a solution-carrying status. -/
def exOracle : SolverOracle := ⟨Status.OPTIMAL, exVal, 5⟩

/-- The backend oracle of the C8 counterexample: INFEASIBLE, so the
response holds no solution. -/
def c8badOracle : SolverOracle := ⟨Status.INFEASIBLE, exVal, 0⟩

/-- C8 counterexample: on a concrete instance with a non-empty variable
space and status INFEASIBLE, the output loop raises on the unguarded
variable read — the solve yields an error and emits no records, so the
claimed records-with-absent-slacks branch for non-solution statuses
does not exist. -/
theorem result_records_counterexample :
    xKeys exInp exCfg ≠ [] ∧
    ¬ statusOk c8badOracle.status ∧
    materializeE exInp exCfg c8badOracle = Except.error noSolutionError ∧
    solveSchedule exInp exCfg c8badOracle = Except.error noSolutionError := by
  exact ⟨by decide, by decide, rfl, rfl⟩

/-- Witness for the corrected C8 at the concrete instance with a
solution-carrying status. -/
theorem result_records_or_value_error_witness :
    materializeE exInp exCfg exOracle = Except.ok (materialize exInp exCfg exOracle) :=
  ((result_records_or_value_error exInp exCfg exOracle (by decide) (by decide)
    (by decide)).1 (Or.inl (Or.inl rfl))).1
